import Mathlib

/-!
Verification of the travel-day-counter core (`TDC.py`) against its
natural-language specification.

The Python program is shallowly embedded:
* Python `dict`s (and `collections.defaultdict`s) become association lists
  (`List (key × value)`) with first-match lookup; assignment to an existing
  key updates it in place, assignment to a fresh key appends, matching
  Python dict insertion-order semantics.  A `defaultdict` subscript that
  misses inserts the default (modelled by `dgetD`).
* `datetime.date` becomes a `Date` structure; the day distance between two
  dates (`(a - b).days` in Python) is computed through the standard
  Gregorian civil-day-number formula, which agrees with `datetime.date`
  subtraction on all valid dates.
* The injected "current system date" `date.today()` is a single `today`
  parameter (the spec requires a single consistent snapshot).
* Calendar years, which the source keeps as the 4-digit text of the date,
  are modelled by their numeric value (`Nat`), faithful for the source's
  `yyyy-mm-dd` input format.
* Python `int` becomes `Int`; the percentage values (Python `float`s that
  are then formatted into strings such as `"33.3%"`) are modelled by their
  numeric content in `ℚ`; Python's `round(x, 1)` (round-half-to-even) is
  modelled exactly on rationals by `pyRound1`.  A raised
  `ZeroDivisionError` becomes the `Except.error` branch.
-/

/-- First-match lookup in an association list, with a default
(Python `dict.get(k, dflt)` / successful subscript). -/
def lookupD {α β : Type} [DecidableEq α] : List (α × β) → α → β → β
  | [], _, dflt => dflt
  | (k', v) :: rest, k, dflt => if k' = k then v else lookupD rest k dflt

/-- First-match lookup returning an `Option`. -/
def lookupA {α β : Type} [DecidableEq α] : List (α × β) → α → Option β
  | [], _ => none
  | (k', v) :: rest, k => if k' = k then some v else lookupA rest k

/-- Key membership (Python `k in d`). -/
def containsKey {α β : Type} (m : List (α × β)) (k : α) : Prop :=
  k ∈ m.map Prod.fst

instance {α β : Type} [DecidableEq α] (m : List (α × β)) (k : α) :
    Decidable (containsKey m k) := by
  unfold containsKey
  infer_instance

/-- Python dict assignment `d[k] = v`: update the (first) existing entry in
place, otherwise append a new entry at the end. -/
def setA {α β : Type} [DecidableEq α] : List (α × β) → α → β → List (α × β)
  | [], k, v => [(k, v)]
  | (k', v') :: rest, k, v =>
    if k' = k then (k', v) :: rest else (k', v') :: setA rest k v

/-- Python `defaultdict` subscript `d[k]`: return the stored value if the key
is present; otherwise insert the default and return it.  Returns the value
together with the (possibly grown) dictionary. -/
def dgetD {α β : Type} [DecidableEq α] : List (α × β) → α → β → β × List (α × β)
  | [], k, dflt => (dflt, [(k, dflt)])
  | (k', v) :: rest, k, dflt =>
    if k' = k then (v, (k', v) :: rest)
    else
      let r := dgetD rest k dflt
      (r.1, (k', v) :: r.2)

/-- A calendar date, as in `datetime.date(year, month, day)`. -/
structure Date where
  year : Nat
  month : Nat
  day : Nat
deriving DecidableEq

/-- Civil day number of a date (days since a fixed epoch), by the standard
Gregorian formula.  For valid dates this gives exactly the day distances of
Python's `datetime.date` subtraction. -/
def Date.dayNumber (dt : Date) : Int :=
  let y : Int := if dt.month ≤ 2 then (dt.year : Int) - 1 else (dt.year : Int)
  let m : Int := if dt.month ≤ 2 then (dt.month : Int) + 9 else (dt.month : Int) - 3
  365 * y + y / 4 - y / 100 + y / 400 + (153 * m + 2) / 5 + (dt.day : Int)

/-- Python `(a - b).days` for two dates. -/
def dateSub (a b : Date) : Int :=
  a.dayNumber - b.dayNumber

/-- The four structures built by `create_visit_history` (`TDC.py` lines
61-64): per-country total days, first/last visit dates, and the
year-to-countries index. -/
structure VisitHistory where
  country2days : List (String × Int)
  country2firstvisit : List (String × Date)
  country2lastvisit : List (String × Date)
  visityear2countries : List (Nat × List String)
deriving DecidableEq

/-- One `if country not in visityear2countries[y]: append` step of the
source (lines 91-94).  The `defaultdict(list)` subscript materialises the
key before the membership test. -/
def addYear (m : List (Nat × List String)) (y : Nat) (c : String) :
    List (Nat × List String) :=
  let g := dgetD m y []
  if c ∈ g.1 then g.2 else setA g.2 y (g.1 ++ [c])

/-- The body of the `for` loop of `create_visit_history` (lines 76-94) for a
single record: accumulate the interval into `country2days`, overwrite
`country2lastvisit`, set `country2firstvisit` on first occurrence, and add
the country to the entry year's and the departure year's lists. -/
def visitStep (h : VisitHistory) (entryDate departureDate : Date)
    (country : String) : VisitHistory :=
  let delta := dateSub departureDate entryDate
  let g := dgetD h.country2days country 0
  { country2days := setA g.2 country (g.1 + delta)
    country2lastvisit := setA h.country2lastvisit country departureDate
    country2firstvisit :=
      if containsKey h.country2firstvisit country then h.country2firstvisit
      else setA h.country2firstvisit country entryDate
    visityear2countries :=
      addYear (addYear h.visityear2countries entryDate.year country)
        departureDate.year country }

/-- The departure date of a record, given the remaining records: the next
record's date (`df['DATE'][i+1]`), or the current date for the final record
(the `KeyError` branch, lines 79-84). -/
def departOf (today : Date) : List (Date × String) → Date
  | [] => today
  | (d', _) :: _ => d'

/-- The record loop of `create_visit_history`: the departure date of each
record is the next record's date, or `today` for the final (open-ended)
record, whose departure year is likewise `today`'s year. -/
def visitLoop (today : Date) : List (Date × String) → VisitHistory → VisitHistory
  | [], h => h
  | (d, c) :: rest, h =>
    visitLoop today rest (visitStep h d (departOf today rest) c)

/-- `create_visit_history` (`TDC.py` lines 53-95): fold the record sequence
starting from empty dictionaries. -/
def create_visit_history (today : Date) (records : List (Date × String)) :
    VisitHistory :=
  visitLoop today records ⟨[], [], [], []⟩

/-- The per-record stay intervals: each record paired with the day distance
to the next record's date (or to `today` for the last record). -/
def intervalsOf (today : Date) : List (Date × String) → List (String × Int)
  | [] => []
  | (d, c) :: rest =>
    (c, dateSub (departOf today rest) d) :: intervalsOf today rest

/-- Sum of the values of a day-count dictionary
(Python `sum(country2days.values())`). -/
def sumValues (m : List (String × Int)) : Int :=
  (m.map Prod.snd).sum

/-- Round-half-to-even to an integer, exactly on rationals; this is the
behaviour of Python's `round` (the source only ever feeds it values whose
binary-float rounding agrees with the exact rational rounding). -/
def roundHalfEven (q : ℚ) : ℤ :=
  let f : ℤ := Int.fdiv q.num (q.den : ℤ)
  let r : ℚ := q - (f : ℚ)
  if r < 1 / 2 then f
  else if 1 / 2 < r then f + 1
  else if f % 2 = 0 then f else f + 1

/-- Python `round(q, 1)`: round to one decimal place. -/
def pyRound1 (q : ℚ) : ℚ :=
  (roundHalfEven (q * 10) : ℚ) / 10

/-- The loop of `create_country2percent` (`TDC.py` lines 100-101): each
country is mapped to `round((days/total_days)*100, 1)` (the numeric content
of the stored percentage string).  The division raises `ZeroDivisionError`
when `total_days` is `0` and at least one country is present. -/
def percentGo (total : Int) : List (String × Int) → Except String (List (String × ℚ))
  | [] => Except.ok []
  | (c, d) :: rest =>
    if total = 0 then Except.error "ZeroDivisionError"
    else
      match percentGo total rest with
      | Except.error e => Except.error e
      | Except.ok r => Except.ok ((c, pyRound1 ((d : ℚ) / (total : ℚ) * 100)) :: r)

/-- `create_country2percent` (`TDC.py` lines 97-102). -/
def create_country2percent (c2d : List (String × Int)) :
    Except String (List (String × ℚ)) :=
  percentGo (sumValues c2d) c2d

/-- Stable insertion of an entry into a list sorted by value descending: the
entry goes in front of the first element whose value is not larger, which is
exactly the placement Python's stable `sorted(..., key=value, reverse=True)`
gives an element relative to later elements. -/
def insertDesc (x : String × Int) : List (String × Int) → List (String × Int)
  | [] => [x]
  | y :: ys => if y.2 ≤ x.2 then x :: y :: ys else y :: insertDesc x ys

/-- Stable sort by value descending, modelling
`sorted(country2days.items(), key=lambda x: x[1], reverse=True)`. -/
def sortDesc : List (String × Int) → List (String × Int)
  | [] => []
  | x :: xs => insertDesc x (sortDesc xs)

/-- The comparison `days < current_max_days` of the ranking loop, where
`current_max_days` starts at `float('inf')` (modelled by `none`). -/
def ltMax (d : Int) : Option Int → Bool
  | none => true
  | some m => decide (d < m)

/-- The loop of `create_country2rank` (`TDC.py` lines 110-118), carrying
`current_rank`, `current_max_days` and `rank_diff` exactly as the source
does. -/
def rankLoop : List (String × Int) → Int → Option Int → Int → List (String × Int)
  | [], _, _, _ => []
  | (c, d) :: rest, currentRank, currentMax, rankDiff =>
    if ltMax d currentMax then
      (c, currentRank + rankDiff + 1) ::
        rankLoop rest (currentRank + rankDiff + 1) (some d) 0
    else
      (c, currentRank) :: rankLoop rest currentRank currentMax (rankDiff + 1)

/-- `create_country2rank` (`TDC.py` lines 104-119): sort by days descending
and walk the list with the tie-aware rank counter. -/
def create_country2rank (c2d : List (String × Int)) : List (String × Int) :=
  rankLoop (sortDesc c2d) 0 none 0

/-- Number of entries whose day count strictly exceeds `d`. -/
def countGt (l : List (String × Int)) (d : Int) : Nat :=
  l.countP (fun p => decide (d < p.2))

/-- Number of entries whose day count equals `d` (the size of `d`'s tie
group). -/
def countEq (l : List (String × Int)) (d : Int) : Nat :=
  l.countP (fun p => decide (p.2 = d))

/-- The home/abroad rollup of `TravelDayCounter.__init__` (`TDC.py` lines
47-50): `days_home = country2days[home_code]` is a `defaultdict` subscript,
so a missing home code yields `0` and inserts the key; `days_abroad` then
sums the values of the (possibly grown) dictionary over the non-home
countries.  Returns `(days_home, days_abroad, final country2days)`. -/
def daysHomeAbroad (c2d : List (String × Int)) (home : String) :
    Int × Int × List (String × Int) :=
  let g := dgetD c2d home 0
  (g.1, ((g.2.filter (fun p => decide (p.1 ≠ home))).map Prod.snd).sum, g.2)

/-- `day_count` (`TDC.py` lines 133-138): days elapsed from a start date to
the current date. -/
def day_count (today startDate : Date) : Int :=
  dateSub today startDate

/-- The attributes computed by `TravelDayCounter.__init__` (`TDC.py` lines
42-51), with the percentage table holding the numeric content of the stored
strings. -/
structure TDC where
  country2days : List (String × Int)
  country2percent : List (String × ℚ)
  country2rank : List (String × Int)
  country2firstvisit : List (String × Date)
  country2lastvisit : List (String × Date)
  visityear2countries : List (Nat × List String)
  num_visited_countries : Nat
  days_home : Int
  years_home : ℚ
  days_abroad : Int
  years_abroad : ℚ
  residency_period : Int
deriving DecidableEq

/-- `TravelDayCounter.__init__` (`TDC.py` lines 42-51), in the source's
order: the builder runs first; the percentage table, rank table and country
count are derived from the builder's `country2days`; only then does the
`days_home` `defaultdict` subscript run (possibly inserting the home code),
and `days_abroad` sums the resulting dictionary.  An uncaught
`ZeroDivisionError` from the percentage derivation aborts construction. -/
def makeTDC (today : Date) (records : List (Date × String)) (home_code : String)
    (residency_begin : Date) : Except String TDC :=
  let h := create_visit_history today records
  match create_country2percent h.country2days with
  | Except.error e => Except.error e
  | Except.ok percent =>
    let rank := create_country2rank h.country2days
    let num := h.country2days.length
    let r := daysHomeAbroad h.country2days home_code
    Except.ok
      { country2days := r.2.2
        country2percent := percent
        country2rank := rank
        country2firstvisit := h.country2firstvisit
        country2lastvisit := h.country2lastvisit
        visityear2countries := h.visityear2countries
        num_visited_countries := num
        days_home := r.1
        years_home := pyRound1 ((r.1 : ℚ) / 365)
        days_abroad := r.2.1
        years_abroad := pyRound1 ((r.2.1 : ℚ) / 365)
        residency_period := day_count today residency_begin }

/-- C1: on the input sequence
`[(2020-01-01, "A"), (2020-06-01, "B"), (2020-12-01, "A")]` with the
injected current date `2021-01-01`, the Visit History Builder produces
intervals A:152, B:183, A:31, hence `total_days = {A: 183, B: 183}`, and
the rank derivation assigns both countries rank 1. -/
theorem claim_C1_example :
    intervalsOf ⟨2021, 1, 1⟩
        [(⟨2020, 1, 1⟩, "A"), (⟨2020, 6, 1⟩, "B"), (⟨2020, 12, 1⟩, "A")] =
      [("A", 152), ("B", 183), ("A", 31)] ∧
    (create_visit_history ⟨2021, 1, 1⟩
        [(⟨2020, 1, 1⟩, "A"), (⟨2020, 6, 1⟩, "B"), (⟨2020, 12, 1⟩, "A")]).country2days =
      [("A", 183), ("B", 183)] ∧
    create_country2rank
        (create_visit_history ⟨2021, 1, 1⟩
          [(⟨2020, 1, 1⟩, "A"), (⟨2020, 6, 1⟩, "B"), (⟨2020, 12, 1⟩, "A")]).country2days =
      [("A", 1), ("B", 1)] := by
  refine ⟨by decide, by decide, by decide⟩

theorem perm_insertDesc (x : String × Int) (l : List (String × Int)) :
    (insertDesc x l).Perm (x :: l) := by
  induction l with
  | nil => exact List.Perm.refl _
  | cons y ys ih =>
    by_cases h : y.2 ≤ x.2
    · simp [insertDesc, h]
    · simp only [insertDesc, if_neg h]
      exact (ih.cons y).trans (List.Perm.swap x y ys)

theorem perm_sortDesc (l : List (String × Int)) : (sortDesc l).Perm l := by
  induction l with
  | nil => exact List.Perm.refl _
  | cons x xs ih => exact (perm_insertDesc x (sortDesc xs)).trans (ih.cons x)

theorem pairwise_insertDesc (x : String × Int) (l : List (String × Int))
    (h : List.Pairwise (fun a b => b.2 ≤ a.2) l) :
    List.Pairwise (fun a b => b.2 ≤ a.2) (insertDesc x l) := by
  induction l with
  | nil => simp [insertDesc]
  | cons y ys ih =>
    rw [List.pairwise_cons] at h
    obtain ⟨hy, hys⟩ := h
    by_cases hle : y.2 ≤ x.2
    · simp only [insertDesc, if_pos hle]
      rw [List.pairwise_cons]
      refine ⟨?_, ?_⟩
      · intro b hb
        rcases List.mem_cons.mp hb with h1 | h2
        · subst h1; exact hle
        · exact le_trans (hy b h2) hle
      · rw [List.pairwise_cons]
        exact ⟨hy, hys⟩
    · simp only [insertDesc, if_neg hle]
      rw [List.pairwise_cons]
      refine ⟨?_, ih hys⟩
      intro b hb
      have hb' : b ∈ x :: ys := (perm_insertDesc x ys).mem_iff.mp hb
      rcases List.mem_cons.mp hb' with h1 | h2
      · subst h1
        exact le_of_lt (not_le.mp hle)
      · exact hy b h2

theorem pairwise_sortDesc (l : List (String × Int)) :
    List.Pairwise (fun a b => b.2 ≤ a.2) (sortDesc l) := by
  induction l with
  | nil => simp [sortDesc]
  | cons x xs ih => exact pairwise_insertDesc x (sortDesc xs) ih

theorem countGt_sortDesc (l : List (String × Int)) (d : Int) :
    countGt (sortDesc l) d = countGt l d :=
  (perm_sortDesc l).countP_eq _

theorem countGt_eq_zero_of_le (t : List (String × Int)) (d : Int)
    (h : ∀ p ∈ t, p.2 ≤ d) : countGt t d = 0 := by
  rw [countGt, List.countP_eq_zero]
  intro p hp
  simp only [decide_eq_true_eq]
  exact not_lt.mpr (h p hp)

theorem rankLoop_sorted_eq (s : List (String × Int)) :
    ∀ (M r k : Int), List.Pairwise (fun a b => b.2 ≤ a.2) s →
      (∀ p ∈ s, p.2 ≤ M) →
      rankLoop s r (some M) k =
        s.map (fun p =>
          (p.1, if p.2 = M then r else r + k + 1 + (countGt s p.2 : Int))) := by
  induction s with
  | nil =>
    intro M r k _ _
    rfl
  | cons hd t ih =>
    intro M r k hp hM
    obtain ⟨c, d⟩ := hd
    rw [List.pairwise_cons] at hp
    obtain ⟨hd1, ht⟩ := hp
    have hdM : d ≤ M := hM (c, d) (List.mem_cons_self _ _)
    have htled : ∀ p ∈ t, p.2 ≤ d := fun p hp' => hd1 p hp'
    have hcnt0 : countGt ((c, d) :: t) d = 0 := by
      refine countGt_eq_zero_of_le _ _ ?_
      intro p hp'
      rcases List.mem_cons.mp hp' with h1 | h2
      · subst h1; exact le_refl _
      · exact htled p h2
    by_cases hlt : d < M
    · have hbr : ltMax d (some M) = true := by simp [ltMax, hlt]
      rw [rankLoop, if_pos hbr]
      have hrec := ih d (r + k + 1) 0 ht htled
      rw [hrec, List.map_cons]
      have hne : ¬ d = M := by omega
      rw [if_neg hne]
      refine congrArg₂ _ ?_ ?_
      · rw [hcnt0]
        simp
      · refine List.map_congr_left ?_
        intro p hp'
        have hpd : p.2 ≤ d := htled p hp'
        have hpM : ¬ p.2 = M := by omega
        rw [if_neg hpM]
        by_cases hpeq : p.2 = d
        · rw [if_pos hpeq, hpeq, hcnt0]
          simp
        · rw [if_neg hpeq]
          have : countGt ((c, d) :: t) p.2 = countGt t p.2 + 1 := by
            rw [countGt, countGt, List.countP_cons]
            have : p.2 < d := lt_of_le_of_ne hpd hpeq
            simp [this]
          rw [this]
          refine congrArg _ ?_
          push_cast
          ring
    · have hdM' : d = M := le_antisymm hdM (not_lt.mp hlt)
      subst hdM'
      have hbr : ltMax d (some d) = false := by simp [ltMax]
      rw [rankLoop, hbr]
      simp only [Bool.false_eq_true, if_false]
      have hrec := ih d r (k + 1) ht htled
      rw [hrec, List.map_cons, if_pos rfl]
      refine congrArg _ ?_
      refine List.map_congr_left ?_
      intro p hp'
      have hpd : p.2 ≤ d := htled p hp'
      by_cases hpeq : p.2 = d
      · rw [if_pos hpeq, if_pos hpeq]
      · rw [if_neg hpeq, if_neg hpeq]
        have : countGt ((c, d) :: t) p.2 = countGt t p.2 + 1 := by
          rw [countGt, countGt, List.countP_cons]
          have : p.2 < d := lt_of_le_of_ne hpd hpeq
          simp [this]
        rw [this]
        refine congrArg _ ?_
        push_cast
        ring

theorem create_country2rank_eq (l : List (String × Int)) :
    create_country2rank l =
      (sortDesc l).map (fun p => (p.1, 1 + (countGt l p.2 : Int))) := by
  unfold create_country2rank
  have hpw := pairwise_sortDesc l
  have hsimp : ∀ x : Int, countGt (sortDesc l) x = countGt l x :=
    fun x => countGt_sortDesc l x
  cases hs : sortDesc l with
  | nil => rfl
  | cons hd t =>
    obtain ⟨c, d⟩ := hd
    rw [hs, List.pairwise_cons] at hpw
    obtain ⟨hd1, ht⟩ := hpw
    have htled : ∀ p ∈ t, p.2 ≤ d := fun p hp' => hd1 p hp'
    have hcnt0 : countGt ((c, d) :: t) d = 0 := by
      refine countGt_eq_zero_of_le _ _ ?_
      intro p hp'
      rcases List.mem_cons.mp hp' with h1 | h2
      · subst h1; exact le_refl _
      · exact htled p h2
    have hbr : ltMax d none = true := rfl
    rw [rankLoop, if_pos hbr]
    rw [rankLoop_sorted_eq t d (0 + 0 + 1) 0 ht htled, List.map_cons]
    have hcl : countGt l d = 0 := by
      rw [← hsimp, hs]
      exact hcnt0
    refine congrArg₂ _ ?_ ?_
    · rw [hcl]
      norm_num
    · refine List.map_congr_left ?_
      intro p hp'
      have hpd : p.2 ≤ d := htled p hp'
      by_cases hpeq : p.2 = d
      · rw [if_pos hpeq, hpeq, hcl]
        norm_num
      · rw [if_neg hpeq]
        have hcsplit : countGt ((c, d) :: t) p.2 = countGt t p.2 + 1 := by
          rw [countGt, countGt, List.countP_cons]
          have : p.2 < d := lt_of_le_of_ne hpd hpeq
          simp [this]
        have hcl2 : countGt l p.2 = countGt t p.2 + 1 := by
          rw [← hsimp, hs]
          exact hcsplit
        rw [hcl2]
        refine congrArg _ ?_
        push_cast
        ring

theorem mem_assoc_unique {α β : Type} (m : List (α × β))
    (h : (m.map Prod.fst).Nodup) {k : α} {v v' : β}
    (h1 : (k, v) ∈ m) (h2 : (k, v') ∈ m) : v = v' := by
  induction m with
  | nil => cases h1
  | cons p rest ih =>
    rw [List.map_cons, List.nodup_cons] at h
    obtain ⟨hnotin, hnd⟩ := h
    rcases List.mem_cons.mp h1 with e1 | m1 <;> rcases List.mem_cons.mp h2 with e2 | m2
    · exact congrArg Prod.snd (e1.trans e2.symm)
    · exfalso
      apply hnotin
      rw [← e1]
      exact List.mem_map.mpr ⟨(k, v'), m2, rfl⟩
    · exfalso
      apply hnotin
      rw [← e2]
      exact List.mem_map.mpr ⟨(k, v), m1, rfl⟩
    · exact ih hnd m1 m2

theorem countGt_split (l : List (String × Int)) (dp dq : Int) (hlt : dq < dp)
    (hgap : ∀ x ∈ l, x.2 ≤ dq ∨ dp ≤ x.2) :
    countGt l dq = countGt l dp + countEq l dp := by
  induction l with
  | nil => rfl
  | cons y ys ih =>
    have ihy := ih (fun x hx => hgap x (List.mem_cons_of_mem y hx))
    have hy := hgap y (List.mem_cons_self y ys)
    simp only [countGt, countEq, List.countP_cons, decide_eq_true_eq] at ihy ⊢
    rcases hy with h1 | h2 <;> split_ifs <;> omega

theorem rank_keys (l : List (String × Int)) :
    (create_country2rank l).map Prod.fst = (sortDesc l).map Prod.fst := by
  rw [create_country2rank_eq, List.map_map]
  exact List.map_congr_left (fun p _ => rfl)

theorem rank_keys_nodup (l : List (String × Int))
    (hnd : (l.map Prod.fst).Nodup) :
    ((create_country2rank l).map Prod.fst).Nodup := by
  rw [rank_keys]
  exact (((perm_sortDesc l).map Prod.fst).nodup_iff).mpr hnd

theorem rank_mem_formula (l : List (String × Int))
    {p : String × Int} (hp : p ∈ l) :
    (p.1, 1 + (countGt l p.2 : Int)) ∈ create_country2rank l := by
  rw [create_country2rank_eq]
  exact List.mem_map.mpr ⟨p, (perm_sortDesc l).mem_iff.mpr hp, rfl⟩

theorem rank_val_eq (l : List (String × Int)) (hnd : (l.map Prod.fst).Nodup)
    {p : String × Int} (hp : p ∈ l) {r : Int}
    (hr : (p.1, r) ∈ create_country2rank l) :
    r = 1 + (countGt l p.2 : Int) :=
  mem_assoc_unique _ (rank_keys_nodup l hnd) hr (rank_mem_formula l hp)

/-- C2: `create_country2rank` implements competition ranking with shared
ranks for ties.  For every day-total mapping (association list with
distinct country keys): every assigned rank is a positive integer; every
country's rank is one more than the number of countries with strictly more
days; two countries with equal day counts receive equal ranks; and when a
country's day count is the next strictly smaller one after another's (no
day count lies strictly between), its rank skips past the higher group by
exactly that group's size `k` — so consecutive distinct rank values differ
by the tie-group size, i.e. the sorted distinct ranks show a gap of
`k - 1` skipped values after each group of `k` tied countries. -/
theorem claim_C2_competition_ranking (c2d : List (String × Int))
    (hnd : (c2d.map Prod.fst).Nodup) :
    (∀ p ∈ create_country2rank c2d, 1 ≤ p.2) ∧
    (∀ p ∈ c2d, (p.1, 1 + (countGt c2d p.2 : Int)) ∈ create_country2rank c2d) ∧
    (∀ p ∈ c2d, ∀ q ∈ c2d, ∀ rp rq : Int,
      (p.1, rp) ∈ create_country2rank c2d →
      (q.1, rq) ∈ create_country2rank c2d →
      p.2 = q.2 → rp = rq) ∧
    (∀ p ∈ c2d, ∀ q ∈ c2d, ∀ rp rq : Int,
      (p.1, rp) ∈ create_country2rank c2d →
      (q.1, rq) ∈ create_country2rank c2d →
      q.2 < p.2 → (∀ x ∈ c2d, x.2 ≤ q.2 ∨ p.2 ≤ x.2) →
      rq = rp + (countEq c2d p.2 : Int)) := by
  refine ⟨?_, ?_, ?_, ?_⟩
  · intro p hp
    rw [create_country2rank_eq] at hp
    obtain ⟨q, _, hq⟩ := List.mem_map.mp hp
    rw [← hq]
    simp only
    omega
  · intro p hp
    exact rank_mem_formula c2d hp
  · intro p hp q hq rp rq hrp hrq heq
    have h1 := rank_val_eq c2d hnd hp hrp
    have h2 := rank_val_eq c2d hnd hq hrq
    rw [h1, h2, heq]
  · intro p hp q hq rp rq hrp hrq hlt hgap
    have h1 := rank_val_eq c2d hnd hp hrp
    have h2 := rank_val_eq c2d hnd hq hrq
    have hsplit := countGt_split c2d p.2 q.2 hlt hgap
    omega

/-- Witness for C2 at the mapping `{A: 5, B: 5, C: 5 → 2}`: the two-way tie
at 5 days holds rank 1, and the next smaller day count 2 receives rank
`1 + 2 = 3` (the tie-group size is skipped). -/
theorem claim_C2_witness :
    (3 : Int) = 1 + (countEq [("A", (5 : Int)), ("B", 5), ("C", 2)] 5 : Int) := by
  have h := claim_C2_competition_ranking [("A", (5 : Int)), ("B", 5), ("C", 2)]
    (by decide)
  exact h.2.2.2 ("A", 5) (by decide) ("C", 2) (by decide) 1 3
    (by decide) (by decide) (by decide) (by decide)

theorem lookupD_not_contains {α β : Type} [DecidableEq α] (m : List (α × β))
    (q : α) (dflt : β) (h : ¬ containsKey m q) : lookupD m q dflt = dflt := by
  induction m with
  | nil => rfl
  | cons p rest ih =>
    simp only [containsKey, List.map_cons, List.mem_cons, not_or] at h
    rw [lookupD, if_neg (fun e => h.1 e.symm)]
    exact ih (by simpa [containsKey] using h.2)

theorem dgetD_present {α β : Type} [DecidableEq α] (m : List (α × β)) (k : α)
    (dflt : β) (h : containsKey m k) :
    dgetD m k dflt = (lookupD m k dflt, m) := by
  induction m with
  | nil => simp [containsKey] at h
  | cons p rest ih =>
    obtain ⟨a, b⟩ := p
    by_cases hak : a = k
    · simp [dgetD, lookupD, hak]
    · have h' : containsKey rest k := by
        simp only [containsKey, List.map_cons, List.mem_cons] at h
        rcases h with h1 | h2
        · exact absurd h1.symm hak
        · exact h2
      simp [dgetD, lookupD, hak, ih h']

theorem dgetD_absent {α β : Type} [DecidableEq α] (m : List (α × β)) (k : α)
    (dflt : β) (h : ¬ containsKey m k) :
    dgetD m k dflt = (dflt, m ++ [(k, dflt)]) := by
  induction m with
  | nil => rfl
  | cons p rest ih =>
    obtain ⟨a, b⟩ := p
    simp only [containsKey, List.map_cons, List.mem_cons, not_or] at h
    have hak : ¬ a = k := fun e => h.1 e.symm
    simp [dgetD, hak, ih (by simpa [containsKey] using h.2)]

theorem lookupD_setA {α β : Type} [DecidableEq α] (m : List (α × β)) (k : α)
    (v : β) (q : α) (dflt : β) :
    lookupD (setA m k v) q dflt = if q = k then v else lookupD m q dflt := by
  induction m with
  | nil =>
    by_cases h : q = k
    · subst h
      simp [setA, lookupD]
    · have h2 : ¬ k = q := fun e => h e.symm
      simp [setA, lookupD, h, h2]
  | cons p rest ih =>
    obtain ⟨a, b⟩ := p
    rw [setA]
    by_cases hak : a = k
    · rw [if_pos hak]
      subst hak
      by_cases haq : a = q
      · subst haq
        simp [lookupD]
      · have hqa : ¬ q = a := fun e => haq e.symm
        simp [lookupD, haq, hqa]
    · rw [if_neg hak, lookupD, lookupD, ih]
      by_cases haq : a = q
      · have hqk : ¬ q = k := fun e => hak (haq.trans e)
        rw [if_pos haq, if_neg hqk, if_pos haq]
      · rw [if_neg haq, if_neg haq]

theorem setA_append_fresh {α β : Type} [DecidableEq α] (m : List (α × β))
    (k : α) (d v : β) (h : ¬ containsKey m k) :
    setA (m ++ [(k, d)]) k v = m ++ [(k, v)] := by
  induction m with
  | nil => simp [setA]
  | cons p rest ih =>
    obtain ⟨a, b⟩ := p
    simp only [containsKey, List.map_cons, List.mem_cons, not_or] at h
    have hak : ¬ a = k := fun e => h.1 e.symm
    simp [setA, hak, ih (by simpa [containsKey] using h.2)]

theorem lookupD_append_single {α β : Type} [DecidableEq α] (m : List (α × β))
    (k : α) (w : β) (q : α) (dflt : β) :
    lookupD (m ++ [(k, w)]) q dflt =
      if containsKey m q then lookupD m q dflt
      else if q = k then w else dflt := by
  induction m with
  | nil =>
    by_cases h : q = k
    · subst h
      simp [containsKey, lookupD]
    · have h2 : ¬ k = q := fun e => h e.symm
      simp [containsKey, lookupD, h, h2]
  | cons p rest ih =>
    obtain ⟨a, b⟩ := p
    by_cases haq : a = q
    · simp [containsKey, lookupD, haq]
    · have hqa : ¬ q = a := fun e => haq e.symm
      have h1 : containsKey ((a, b) :: rest) q ↔ containsKey rest q := by
        simp [containsKey, hqa]
      rw [List.cons_append, lookupD, if_neg haq, ih, lookupD, if_neg haq]
      by_cases h2 : containsKey rest q
      · rw [if_pos h2, if_pos (h1.mpr h2)]
      · rw [if_neg h2, if_neg (fun hh => h2 (h1.mp hh))]

theorem lookupD_incr (m : List (String × Int)) (c : String) (δ : Int) (q : String) :
    lookupD (setA (dgetD m c 0).2 c ((dgetD m c 0).1 + δ)) q 0 =
      lookupD m q 0 + (if q = c then δ else 0) := by
  by_cases hc : containsKey m c
  · rw [dgetD_present m c 0 hc]
    simp only
    rw [lookupD_setA]
    by_cases hq : q = c
    · subst hq
      simp
    · simp [hq]
  · rw [dgetD_absent m c 0 hc]
    simp only
    rw [setA_append_fresh m c 0 (0 + δ) hc, lookupD_append_single]
    by_cases hq : q = c
    · subst hq
      simp [if_neg hc, lookupD_not_contains m q 0 hc]
    · simp only [if_neg hq, add_zero]
      by_cases h2 : containsKey m q
      · rw [if_pos h2]
      · rw [if_neg h2, lookupD_not_contains m q 0 h2]

theorem visitStep_days (h : VisitHistory) (ed dd : Date) (c q : String) :
    lookupD (visitStep h ed dd c).country2days q 0 =
      lookupD h.country2days q 0 + (if q = c then dateSub dd ed else 0) := by
  simp only [visitStep]
  exact lookupD_incr h.country2days c (dateSub dd ed) q

theorem visitLoop_days (today : Date) (recs : List (Date × String)) :
    ∀ (h : VisitHistory) (q : String),
      lookupD (visitLoop today recs h).country2days q 0 =
        lookupD h.country2days q 0 +
          (((intervalsOf today recs).filter (fun p => decide (p.1 = q))).map
            Prod.snd).sum := by
  induction recs with
  | nil =>
    intro h q
    simp [visitLoop, intervalsOf]
  | cons r rest ih =>
    intro h q
    obtain ⟨d, c⟩ := r
    simp only [visitLoop, intervalsOf]
    rw [ih, visitStep_days, List.filter_cons]
    by_cases hq : q = c
    · rw [if_pos hq, if_pos (by simp [hq.symm]), List.map_cons, List.sum_cons]
      omega
    · have hcq : ¬ c = q := fun e => hq e.symm
      rw [if_neg hq, if_neg (by simp [hcq])]
      omega

theorem create_visit_history_days (today : Date) (recs : List (Date × String))
    (q : String) :
    lookupD (create_visit_history today recs).country2days q 0 =
      (((intervalsOf today recs).filter (fun p => decide (p.1 = q))).map
        Prod.snd).sum := by
  rw [create_visit_history, visitLoop_days]
  simp [lookupD]

theorem keys_setA {α β : Type} [DecidableEq α] (m : List (α × β)) (k : α) (v : β) :
    (setA m k v).map Prod.fst =
      if containsKey m k then m.map Prod.fst else m.map Prod.fst ++ [k] := by
  induction m with
  | nil => simp [setA, containsKey]
  | cons p rest ih =>
    obtain ⟨a, b⟩ := p
    by_cases hak : a = k
    · have hck : containsKey ((a, b) :: rest) k := by
        simp [containsKey, hak.symm]
      rw [setA, if_pos hak, if_pos hck]
      simp
    · have h1 : containsKey ((a, b) :: rest) k ↔ containsKey rest k := by
        have : ¬ k = a := fun e => hak e.symm
        simp [containsKey, this]
      rw [setA, if_neg hak, List.map_cons, ih, List.map_cons]
      by_cases h2 : containsKey rest k
      · rw [if_pos h2, if_pos (h1.mpr h2)]
      · rw [if_neg h2, if_neg (fun hh => h2 (h1.mp hh))]
        simp

theorem nodup_keys_setA {α β : Type} [DecidableEq α] (m : List (α × β)) (k : α)
    (v : β) (h : (m.map Prod.fst).Nodup) : ((setA m k v).map Prod.fst).Nodup := by
  rw [keys_setA]
  by_cases hc : containsKey m k
  · rw [if_pos hc]
    exact h
  · rw [if_neg hc]
    refine List.Nodup.append h (List.nodup_singleton k) ?_
    intro a ha hk
    rw [List.mem_singleton] at hk
    subst hk
    exact hc ha

theorem nodup_keys_days_update (m : List (String × Int)) (c : String) (δ : Int)
    (h : (m.map Prod.fst).Nodup) :
    ((setA (dgetD m c 0).2 c ((dgetD m c 0).1 + δ)).map Prod.fst).Nodup := by
  by_cases hc : containsKey m c
  · rw [dgetD_present m c 0 hc]
    exact nodup_keys_setA m c _ h
  · rw [dgetD_absent m c 0 hc]
    apply nodup_keys_setA
    rw [List.map_append]
    refine List.Nodup.append h (by simp) ?_
    intro a ha hk
    simp only [List.map_cons, List.map_nil, List.mem_singleton] at hk
    subst hk
    exact hc ha

theorem visitLoop_days_keys_nodup (today : Date) (recs : List (Date × String)) :
    ∀ h : VisitHistory, (h.country2days.map Prod.fst).Nodup →
      ((visitLoop today recs h).country2days.map Prod.fst).Nodup := by
  induction recs with
  | nil =>
    intro h hh
    exact hh
  | cons r rest ih =>
    intro h hh
    obtain ⟨d, c⟩ := r
    simp only [visitLoop]
    apply ih
    simp only [visitStep]
    exact nodup_keys_days_update h.country2days c _ hh

theorem create_visit_history_days_keys_nodup (today : Date)
    (recs : List (Date × String)) :
    (((create_visit_history today recs).country2days).map Prod.fst).Nodup := by
  rw [create_visit_history]
  exact visitLoop_days_keys_nodup today recs _ (by simp)

theorem sum_split (m : List (String × Int)) (home : String)
    (h : (m.map Prod.fst).Nodup) :
    sumValues m = lookupD m home 0 +
      ((m.filter (fun p => decide (p.1 ≠ home))).map Prod.snd).sum := by
  induction m with
  | nil => simp [sumValues, lookupD]
  | cons p rest ih =>
    obtain ⟨k, v⟩ := p
    rw [List.map_cons, List.nodup_cons] at h
    have hrest := ih h.2
    have hsc : sumValues ((k, v) :: rest) = v + sumValues rest := by
      simp [sumValues]
    rw [hsc, List.filter_cons]
    by_cases hk : k = home
    · subst hk
      have hnc : ¬ containsKey rest k := h.1
      have hl0 : lookupD rest k 0 = 0 := lookupD_not_contains rest k 0 hnc
      rw [lookupD, if_pos rfl, if_neg (by simp)]
      omega
    · rw [lookupD, if_neg hk, if_pos (by simp [hk]), List.map_cons, List.sum_cons]
      omega

theorem filter_ne_of_absent (m : List (String × Int)) (home : String)
    (h : ¬ containsKey m home) :
    m.filter (fun p => decide (p.1 ≠ home)) = m := by
  apply List.filter_eq_self.mpr
  intro a ha
  simp only [decide_eq_true_eq]
  intro e
  apply h
  exact List.mem_map.mpr ⟨a, ha, e⟩

theorem daysHomeAbroad_present (m : List (String × Int)) (home : String)
    (hc : containsKey m home) :
    daysHomeAbroad m home =
      (lookupD m home 0,
        ((m.filter (fun p => decide (p.1 ≠ home))).map Prod.snd).sum, m) := by
  unfold daysHomeAbroad
  rw [dgetD_present m home 0 hc]

theorem daysHomeAbroad_absent (m : List (String × Int)) (home : String)
    (hc : ¬ containsKey m home) :
    daysHomeAbroad m home = (0, sumValues m, m ++ [(home, 0)]) := by
  unfold daysHomeAbroad
  rw [dgetD_absent m home 0 hc]
  have h1 : List.filter (fun p => decide (p.1 ≠ home)) (m ++ [(home, (0 : Int))]) = m := by
    rw [List.filter_append, filter_ne_of_absent m home hc]
    simp
  simp only [h1]
  rfl

/-- C4: for every input (any record sequence, any injected current date and
any configured home code), the total of all day counts equals
`days_home + days_abroad` exactly, where both figures are computed by the
rollup of `__init__` lines 47-50 (including its `defaultdict` lookup of the
home code). -/
theorem claim_C4_total_split (today : Date) (recs : List (Date × String))
    (home : String) :
    sumValues ((create_visit_history today recs).country2days) =
      (daysHomeAbroad ((create_visit_history today recs).country2days) home).1 +
      (daysHomeAbroad ((create_visit_history today recs).country2days) home).2.1 := by
  have hnd := create_visit_history_days_keys_nodup today recs
  by_cases hc : containsKey ((create_visit_history today recs).country2days) home
  · rw [daysHomeAbroad_present _ home hc]
    exact sum_split _ home hnd
  · rw [daysHomeAbroad_absent _ home hc]
    simp

/-- C8: a configured home country code that never occurs in the visit
history yields `days_home = 0` and `days_abroad` equal to the sum of all
per-country totals. -/
theorem claim_C8_unknown_home (today : Date) (recs : List (Date × String))
    (home : String)
    (h : ¬ containsKey ((create_visit_history today recs).country2days) home) :
    (daysHomeAbroad ((create_visit_history today recs).country2days) home).1 = 0 ∧
    (daysHomeAbroad ((create_visit_history today recs).country2days) home).2.1 =
      sumValues ((create_visit_history today recs).country2days) := by
  rw [daysHomeAbroad_absent _ home h]
  exact ⟨rfl, rfl⟩

/-- Witness for C8: one record for country A with home code B (never
visited) gives `days_home = 0` and `days_abroad` equal to the whole total. -/
theorem claim_C8_witness :
    (daysHomeAbroad ((create_visit_history ⟨2020, 1, 2⟩
        [(⟨2020, 1, 1⟩, "A")]).country2days) "B").1 = 0 ∧
    (daysHomeAbroad ((create_visit_history ⟨2020, 1, 2⟩
        [(⟨2020, 1, 1⟩, "A")]).country2days) "B").2.1 =
      sumValues ((create_visit_history ⟨2020, 1, 2⟩
        [(⟨2020, 1, 1⟩, "A")]).country2days) :=
  claim_C8_unknown_home ⟨2020, 1, 2⟩ [(⟨2020, 1, 1⟩, "A")] "B" (by decide)

/-- C6 counterexample: the Builder has no defence against non-monotonic
input.  On `[(2020-01-02, "A"), (2020-01-01, "B")]` with current date
`2020-01-01` it returns normally — no error of any kind is surfaced — and
country A's `total_days` is the negative contribution `-1`. -/
theorem claim_C6_counterexample :
    (create_visit_history ⟨2020, 1, 1⟩
        [(⟨2020, 1, 2⟩, "A"), (⟨2020, 1, 1⟩, "B")]).country2days =
      [("A", -1), ("B", 0)] ∧ (-1 : Int) < 0 := by
  exact ⟨by decide, by decide⟩

/-- C6 amended: the Builder performs no detection of non-monotonic input:
when a record's successor carries an earlier date, the negative interval is
silently accumulated into that country's `total_days` (shown here for a
two-record sequence whose countries differ). -/
theorem claim_C6_amended (today d1 d2 : Date) (c1 c2 : String)
    (hlt : d2.dayNumber < d1.dayNumber) (hne : c1 ≠ c2) :
    lookupD (create_visit_history today [(d1, c1), (d2, c2)]).country2days c1 0 =
      dateSub d2 d1 ∧ dateSub d2 d1 < 0 := by
  constructor
  · rw [create_visit_history_days]
    simp only [intervalsOf, departOf]
    rw [List.filter_cons, if_pos (by simp), List.filter_cons,
      if_neg (by simp [Ne.symm hne])]
    simp [intervalsOf]
  · unfold dateSub
    omega

/-- Witness for C6 amended, at the two-record input of the counterexample. -/
theorem claim_C6_witness :
    lookupD (create_visit_history ⟨2020, 1, 1⟩
        [(⟨2020, 1, 2⟩, "A"), (⟨2020, 1, 1⟩, "B")]).country2days "A" 0 =
      dateSub ⟨2020, 1, 1⟩ ⟨2020, 1, 2⟩ ∧
    dateSub ⟨2020, 1, 1⟩ ⟨2020, 1, 2⟩ < 0 :=
  claim_C6_amended ⟨2020, 1, 1⟩ ⟨2020, 1, 2⟩ ⟨2020, 1, 1⟩ "A" "B"
    (by decide) (by decide)

theorem percentGo_ok (total : Int) (htot : ¬ total = 0) :
    ∀ l : List (String × Int),
      percentGo total l = Except.ok (l.map (fun p =>
        (p.1, pyRound1 ((p.2 : ℚ) / (total : ℚ) * 100)))) := by
  intro l
  induction l with
  | nil => rfl
  | cons p rest ih =>
    obtain ⟨c, d⟩ := p
    rw [percentGo, if_neg htot, ih]
    rfl

theorem sum_div_eq (l : List (String × Int)) (T : ℚ) :
    (l.map (fun p => (p.2 : ℚ) / T)).sum = (sumValues l : ℚ) / T := by
  induction l with
  | nil => simp [sumValues]
  | cons p rest ih =>
    obtain ⟨c, d⟩ := p
    have hsc : sumValues ((c, d) :: rest) = d + sumValues rest := by
      simp [sumValues]
    rw [List.map_cons, List.sum_cons, ih, hsc]
    push_cast
    ring

/-- C3 counterexample: the percent table does not store the exact fraction
`total_days[c] / sum`, and its values do not sum to `1.0` within floating
rounding.  On `{A: 1, B: 1, C: 1}` each stored value is the rounded
percentage `33.3%`, whose numeric content `333/10 / 100 = 0.333` differs
from the exact fraction `1/3`, and the three stored ratios sum to `0.999`,
short of `1` by exactly `1/1000` — four hundred billion times larger than
double-precision rounding error. -/
theorem claim_C3_counterexample :
    create_country2percent [("A", 1), ("B", 1), ("C", 1)] =
      Except.ok [("A", 333 / 10), ("B", 333 / 10), ("C", 333 / 10)] ∧
    ((333 : ℚ) / 10 / 100 ≠ (1 : ℚ) / 3) ∧
    (((333 : ℚ) / 10 + 333 / 10 + 333 / 10) / 100 ≠ 1) ∧
    (1 - ((333 : ℚ) / 10 + 333 / 10 + 333 / 10) / 100 = 1 / 1000) := by
  refine ⟨?_, by norm_num, by norm_num, by norm_num⟩
  with_unfolding_all rfl

/-- C3 amended: the percent table maps each country to the one-decimal
rounded percentage `round(100 * total_days[c] / sum, 1)` (stored as a
percentage string; its numeric content is modelled here), and the exact
underlying ratios `total_days[c] / sum` sum to exactly `1` for every input
whose day total is nonzero. -/
theorem claim_C3_amended (c2d : List (String × Int)) (h : ¬ sumValues c2d = 0) :
    create_country2percent c2d =
      Except.ok (c2d.map (fun p =>
        (p.1, pyRound1 ((p.2 : ℚ) / (sumValues c2d : ℚ) * 100)))) ∧
    (c2d.map (fun p => (p.2 : ℚ) / (sumValues c2d : ℚ))).sum = 1 := by
  constructor
  · exact percentGo_ok (sumValues c2d) h c2d
  · rw [sum_div_eq]
    have hz : (sumValues c2d : ℚ) ≠ 0 := Int.cast_ne_zero.mpr h
    field_simp

/-- Witness for C3 amended at the single-entry table `{A: 1}`. -/
theorem claim_C3_witness :
    create_country2percent [("A", (1 : Int))] =
      Except.ok ([("A", (1 : Int))].map (fun p =>
        (p.1, pyRound1 ((p.2 : ℚ) / (sumValues [("A", (1 : Int))] : ℚ) * 100)))) ∧
    ([("A", (1 : Int))].map (fun p =>
      (p.2 : ℚ) / (sumValues [("A", (1 : Int))] : ℚ))).sum = 1 :=
  claim_C3_amended [("A", 1)] (by decide)

/-- C5 counterexample: on an input of zero records nothing is rejected:
the percentage derivation simply runs over the empty dictionary and
returns an empty table — an `ok` result, not a failure of any kind. -/
theorem claim_C5_counterexample :
    create_country2percent ([] : List (String × Int)) =
      Except.ok ([] : List (String × ℚ)) ∧
    Except.ok ([] : List (String × ℚ)) ≠
      (Except.error "ZeroDivisionError" : Except String (List (String × ℚ))) := by
  exact ⟨rfl, by simp⟩

/-- C5 amended: the computation contains no explicit EmptyInput rejection.
On zero records the whole construction completes normally: the percentage
loop never executes a division (so no division-by-zero fault arises for
this input), the percent table is empty, and the only populated entry is
the home code inserted with 0 days by the rollup's `defaultdict` lookup.
(For a non-empty input whose day total is zero, by contrast, the division
does raise `ZeroDivisionError`.) -/
theorem claim_C5_amended (today residencyBegin : Date) (home : String) :
    ∃ t : TDC, makeTDC today [] home residencyBegin = Except.ok t ∧
      t.country2percent = [] ∧ t.country2days = [(home, 0)] :=
  ⟨_, rfl, rfl, rfl⟩

theorem makeTDC_ok_shape (today : Date) (recs : List (Date × String))
    (home : String) (rb : Date) (pt : List (String × ℚ))
    (hp : create_country2percent (create_visit_history today recs).country2days =
      Except.ok pt) :
    makeTDC today recs home rb = Except.ok
      { country2days :=
          (daysHomeAbroad (create_visit_history today recs).country2days home).2.2
        country2percent := pt
        country2rank :=
          create_country2rank (create_visit_history today recs).country2days
        country2firstvisit := (create_visit_history today recs).country2firstvisit
        country2lastvisit := (create_visit_history today recs).country2lastvisit
        visityear2countries := (create_visit_history today recs).visityear2countries
        num_visited_countries := (create_visit_history today recs).country2days.length
        days_home :=
          (daysHomeAbroad (create_visit_history today recs).country2days home).1
        years_home := pyRound1
          (((daysHomeAbroad (create_visit_history today recs).country2days home).1 : ℚ)
            / 365)
        days_abroad :=
          (daysHomeAbroad (create_visit_history today recs).country2days home).2.1
        years_abroad := pyRound1
          (((daysHomeAbroad (create_visit_history today recs).country2days home).2.1 : ℚ)
            / 365)
        residency_period := day_count today rb } := by
  simp only [makeTDC]
  rw [hp]

/-- C9 counterexample: constructing the aggregate does mutate a Builder
output.  With home code B absent from the single-record history, the
`days_home` `defaultdict` subscript inserts `("B", 0)` into
`country2days`, so the constructed object's `country2days` differs from
the dictionary the Builder produced. -/
theorem claim_C9_counterexample :
    Except.map TDC.country2days
        (makeTDC ⟨2020, 1, 2⟩ [(⟨2020, 1, 1⟩, "A")] "B" ⟨2020, 1, 1⟩) =
      Except.ok [("A", 1), ("B", 0)] ∧
    (create_visit_history ⟨2020, 1, 2⟩ [(⟨2020, 1, 1⟩, "A")]).country2days =
      [("A", 1)] ∧
    ([("A", (1 : Int)), ("B", 0)] : List (String × Int)) ≠ [("A", 1)] := by
  refine ⟨rfl, by decide, by decide⟩

/-- C9 amended: after construction, `country2firstvisit`,
`country2lastvisit` and `visityear2countries` are exactly the Builder's
outputs, and `country2days` is unchanged whenever the home code occurs in
the history; the single mutation in the pipeline is the `days_home`
`defaultdict` subscript, which appends the missing home code with 0 days
to `country2days` when the home code never occurs. -/
theorem claim_C9_frame (today : Date) (recs : List (Date × String))
    (home : String) (rb : Date) (t : TDC)
    (h : makeTDC today recs home rb = Except.ok t) :
    t.country2firstvisit = (create_visit_history today recs).country2firstvisit ∧
    t.country2lastvisit = (create_visit_history today recs).country2lastvisit ∧
    t.visityear2countries = (create_visit_history today recs).visityear2countries ∧
    (containsKey (create_visit_history today recs).country2days home →
      t.country2days = (create_visit_history today recs).country2days) ∧
    (¬ containsKey (create_visit_history today recs).country2days home →
      t.country2days =
        (create_visit_history today recs).country2days ++ [(home, 0)]) := by
  cases hpc : create_country2percent (create_visit_history today recs).country2days with
  | error e =>
    have hbad : makeTDC today recs home rb = Except.error e := by
      simp only [makeTDC]
      rw [hpc]
    rw [hbad] at h
    exact absurd h (by simp)
  | ok pt =>
    rw [makeTDC_ok_shape today recs home rb pt hpc, Except.ok.injEq] at h
    subst h
    refine ⟨rfl, rfl, rfl, ?_, ?_⟩
    · intro hc
      rw [daysHomeAbroad_present _ home hc]
    · intro hc
      rw [daysHomeAbroad_absent _ home hc]

/-- Witness for C9 amended: a single-record history for country A with
home code A (present in the history); the constructed object's
`country2firstvisit` equals the Builder's. -/
theorem claim_C9_witness :
    ({ country2days := [("A", (1 : Int))]
       country2percent := [("A", pyRound1 (((1 : Int) : ℚ) / ((1 : Int) : ℚ) * 100))]
       country2rank := [("A", (1 : Int))]
       country2firstvisit := [("A", (⟨2020, 1, 1⟩ : Date))]
       country2lastvisit := [("A", (⟨2020, 1, 2⟩ : Date))]
       visityear2countries := [(2020, ["A"])]
       num_visited_countries := 1
       days_home := 1
       years_home := pyRound1 (((1 : Int) : ℚ) / 365)
       days_abroad := 0
       years_abroad := pyRound1 (((0 : Int) : ℚ) / 365)
       residency_period := 1 } : TDC).country2firstvisit =
      (create_visit_history ⟨2020, 1, 2⟩
        [(⟨2020, 1, 1⟩, "A")]).country2firstvisit :=
  (claim_C9_frame ⟨2020, 1, 2⟩ [(⟨2020, 1, 1⟩, "A")] "A" ⟨2020, 1, 1⟩ _ rfl).1

theorem dgetD_fst {α β : Type} [DecidableEq α] (m : List (α × β)) (k : α)
    (dflt : β) : (dgetD m k dflt).1 = lookupD m k dflt := by
  by_cases hk : containsKey m k
  · rw [dgetD_present m k dflt hk]
  · rw [dgetD_absent m k dflt hk, lookupD_not_contains m k dflt hk]

theorem dgetD_lookupD_snd {α β : Type} [DecidableEq α] (m : List (α × β))
    (k q : α) (dflt : β) :
    lookupD (dgetD m k dflt).2 q dflt = lookupD m q dflt := by
  by_cases hk : containsKey m k
  · rw [dgetD_present m k dflt hk]
  · rw [dgetD_absent m k dflt hk]
    simp only
    rw [lookupD_append_single]
    by_cases h2 : containsKey m q
    · rw [if_pos h2]
    · rw [if_neg h2, ite_self, lookupD_not_contains m q dflt h2]

theorem containsKey_setA {α β : Type} [DecidableEq α] (m : List (α × β))
    (k : α) (v : β) (q : α) :
    containsKey (setA m k v) q ↔ q = k ∨ containsKey m q := by
  rw [containsKey, keys_setA]
  by_cases hk : containsKey m k
  · rw [if_pos hk]
    constructor
    · exact Or.inr
    · rintro (rfl | hq)
      · exact hk
      · exact hq
  · rw [if_neg hk, List.mem_append, List.mem_singleton]
    exact or_comm

theorem containsKey_dgetD_snd {α β : Type} [DecidableEq α] (m : List (α × β))
    (k : α) (dflt : β) (q : α) :
    containsKey (dgetD m k dflt).2 q ↔ q = k ∨ containsKey m q := by
  by_cases hk : containsKey m k
  · rw [dgetD_present m k dflt hk]
    constructor
    · exact Or.inr
    · rintro (rfl | hq)
      · exact hk
      · exact hq
  · rw [dgetD_absent m k dflt hk]
    simp only
    rw [containsKey, List.map_append, List.mem_append, List.map_cons,
      List.map_nil, List.mem_singleton]
    exact or_comm

theorem lookupA_setA {α β : Type} [DecidableEq α] (m : List (α × β)) (k : α)
    (v : β) (q : α) :
    lookupA (setA m k v) q = if q = k then some v else lookupA m q := by
  induction m with
  | nil =>
    by_cases h : q = k
    · subst h
      simp [setA, lookupA]
    · have h2 : ¬ k = q := fun e => h e.symm
      simp [setA, lookupA, h, h2]
  | cons p rest ih =>
    obtain ⟨a, b⟩ := p
    rw [setA]
    by_cases hak : a = k
    · rw [if_pos hak]
      subst hak
      by_cases haq : a = q
      · subst haq
        simp [lookupA]
      · have hqa : ¬ q = a := fun e => haq e.symm
        simp [lookupA, haq, hqa]
    · rw [if_neg hak, lookupA, lookupA, ih]
      by_cases haq : a = q
      · have hqk : ¬ q = k := fun e => hak (haq.trans e)
        rw [if_pos haq, if_neg hqk, if_pos haq]
      · rw [if_neg haq, if_neg haq]

theorem lookupA_eq_some_of_containsKey {α β : Type} [DecidableEq α]
    (m : List (α × β)) (k : α) (h : containsKey m k) :
    ∃ v, lookupA m k = some v := by
  induction m with
  | nil => simp [containsKey] at h
  | cons p rest ih =>
    obtain ⟨a, b⟩ := p
    by_cases hak : a = k
    · exact ⟨b, by simp [lookupA, hak]⟩
    · have h' : containsKey rest k := by
        simp only [containsKey, List.map_cons, List.mem_cons] at h
        rcases h with h1 | h2
        · exact absurd h1.symm hak
        · exact h2
      obtain ⟨v, hv⟩ := ih h'
      exact ⟨v, by simp [lookupA, hak, hv]⟩

theorem addYear_lookup_self (m : List (Nat × List String)) (y : Nat)
    (c : String) : c ∈ lookupD (addYear m y c) y [] := by
  unfold addYear
  by_cases hc : c ∈ (dgetD m y []).1
  · rw [if_pos hc, dgetD_lookupD_snd]
    rw [dgetD_fst] at hc
    exact hc
  · rw [if_neg hc, lookupD_setA]
    simp

theorem addYear_lookup_mono (m : List (Nat × List String)) (y : Nat)
    (c : String) (y' : Nat) (x : String) (hx : x ∈ lookupD m y' []) :
    x ∈ lookupD (addYear m y c) y' [] := by
  unfold addYear
  by_cases hc : c ∈ (dgetD m y []).1
  · rw [if_pos hc, dgetD_lookupD_snd]
    exact hx
  · rw [if_neg hc, lookupD_setA]
    by_cases hy : y' = y
    · rw [if_pos hy]
      subst hy
      rw [dgetD_fst]
      exact List.mem_append_left _ hx
    · rw [if_neg hy, dgetD_lookupD_snd]
      exact hx

theorem addYear_nodup (m : List (Nat × List String)) (y : Nat) (c : String)
    (h : ∀ y', (lookupD m y' []).Nodup) :
    ∀ y', (lookupD (addYear m y c) y' []).Nodup := by
  intro y'
  unfold addYear
  by_cases hc : c ∈ (dgetD m y []).1
  · rw [if_pos hc, dgetD_lookupD_snd]
    exact h y'
  · rw [if_neg hc, lookupD_setA]
    by_cases hy : y' = y
    · rw [if_pos hy]
      refine List.Nodup.append ?_ (List.nodup_singleton c) ?_
      · rw [dgetD_fst]
        exact h y
      · intro a ha hmem
        rw [List.mem_singleton] at hmem
        subst hmem
        exact hc ha
    · rw [if_neg hy, dgetD_lookupD_snd]
      exact h y'

theorem visitStep_year_mem (h : VisitHistory) (ed dd : Date) (c : String) :
    c ∈ lookupD (visitStep h ed dd c).visityear2countries ed.year [] ∧
    c ∈ lookupD (visitStep h ed dd c).visityear2countries dd.year [] := by
  simp only [visitStep]
  constructor
  · exact addYear_lookup_mono _ dd.year c ed.year c
      (addYear_lookup_self h.visityear2countries ed.year c)
  · exact addYear_lookup_self _ dd.year c

theorem visitStep_year_mono (h : VisitHistory) (ed dd : Date) (c : String)
    (y : Nat) (x : String) (hx : x ∈ lookupD h.visityear2countries y []) :
    x ∈ lookupD (visitStep h ed dd c).visityear2countries y [] := by
  simp only [visitStep]
  exact addYear_lookup_mono _ _ _ _ _ (addYear_lookup_mono _ _ _ _ _ hx)

theorem visitStep_year_nodup (h : VisitHistory) (ed dd : Date) (c : String)
    (hn : ∀ y, (lookupD h.visityear2countries y []).Nodup) :
    ∀ y, (lookupD (visitStep h ed dd c).visityear2countries y []).Nodup := by
  simp only [visitStep]
  exact addYear_nodup _ _ _ (addYear_nodup _ _ _ hn)

theorem visitLoop_year_mono (today : Date) (recs : List (Date × String)) :
    ∀ (h : VisitHistory) (y : Nat) (x : String),
      x ∈ lookupD h.visityear2countries y [] →
      x ∈ lookupD (visitLoop today recs h).visityear2countries y [] := by
  induction recs with
  | nil =>
    intro h y x hx
    exact hx
  | cons r rest ih =>
    intro h y x hx
    obtain ⟨d, c⟩ := r
    simp only [visitLoop]
    exact ih _ y x (visitStep_year_mono h d (departOf today rest) c y x hx)

theorem visitLoop_year_nodup (today : Date) (recs : List (Date × String)) :
    ∀ h : VisitHistory, (∀ y, (lookupD h.visityear2countries y []).Nodup) →
      ∀ y, (lookupD (visitLoop today recs h).visityear2countries y []).Nodup := by
  induction recs with
  | nil =>
    intro h hn
    exact hn
  | cons r rest ih =>
    intro h hn
    obtain ⟨d, c⟩ := r
    simp only [visitLoop]
    exact ih _ (visitStep_year_nodup h d (departOf today rest) c hn)

theorem create_visit_history_year_nodup (today : Date)
    (recs : List (Date × String)) :
    ∀ y, (lookupD (create_visit_history today recs).visityear2countries y []).Nodup := by
  rw [create_visit_history]
  refine visitLoop_year_nodup today recs _ ?_
  intro y
  simp [lookupD]

theorem visitLoop_split (today : Date) (pre l2 : List (Date × String)) :
    ∀ h : VisitHistory, ∃ h' : VisitHistory,
      visitLoop today (pre ++ l2) h = visitLoop today l2 h' := by
  induction pre with
  | nil =>
    intro h
    exact ⟨h, rfl⟩
  | cons r rest ih =>
    intro h
    obtain ⟨d, c⟩ := r
    simp only [List.cons_append, visitLoop]
    exact ih _

/-- C7: for every record whose entry year differs from its departure year
(the next record's year, or the current date's year for the final record),
the Builder puts the record's country into both years' lists of the
`YearVisitIndex`; every year's list is duplicate-free (so each list holds
the country at most once); and each country's `total_days` is exactly the
sum of its per-record intervals, so the cross-year record's interval is
counted exactly once. -/
theorem claim_C7_year_boundary (today : Date) (pre post : List (Date × String))
    (d : Date) (c : String)
    (_hy : d.year ≠ (departOf today post).year) :
    c ∈ lookupD (create_visit_history today
      (pre ++ (d, c) :: post)).visityear2countries d.year [] ∧
    c ∈ lookupD (create_visit_history today
      (pre ++ (d, c) :: post)).visityear2countries (departOf today post).year [] ∧
    (∀ y, (lookupD (create_visit_history today
      (pre ++ (d, c) :: post)).visityear2countries y []).Nodup) ∧
    (∀ q, lookupD (create_visit_history today
        (pre ++ (d, c) :: post)).country2days q 0 =
      (((intervalsOf today (pre ++ (d, c) :: post)).filter
        (fun p => decide (p.1 = q))).map Prod.snd).sum) := by
  obtain ⟨h', hsplit⟩ := visitLoop_split today pre ((d, c) :: post) ⟨[], [], [], []⟩
  refine ⟨?_, ?_, ?_, ?_⟩
  · rw [create_visit_history, hsplit]
    simp only [visitLoop]
    exact visitLoop_year_mono today post _ d.year c
      (visitStep_year_mem h' d (departOf today post) c).1
  · rw [create_visit_history, hsplit]
    simp only [visitLoop]
    exact visitLoop_year_mono today post _ (departOf today post).year c
      (visitStep_year_mem h' d (departOf today post) c).2
  · exact create_visit_history_year_nodup today _
  · intro q
    exact create_visit_history_days today _ q

/-- Witness for C7: record (2020-12-01, A) followed by (2021-01-05, B) with
current date 2021-02-01; A's stay crosses the 2020/2021 boundary and A
appears in both years' lists. -/
theorem claim_C7_witness :
    "A" ∈ lookupD (create_visit_history ⟨2021, 2, 1⟩
      ([] ++ (⟨2020, 12, 1⟩, "A") :: [(⟨2021, 1, 5⟩, "B")])).visityear2countries
      2020 [] ∧
    "A" ∈ lookupD (create_visit_history ⟨2021, 2, 1⟩
      ([] ++ (⟨2020, 12, 1⟩, "A") :: [(⟨2021, 1, 5⟩, "B")])).visityear2countries
      2021 [] := by
  have h := claim_C7_year_boundary ⟨2021, 2, 1⟩ [] [(⟨2021, 1, 5⟩, "B")]
    ⟨2020, 12, 1⟩ "A" (by decide)
  exact ⟨h.1, h.2.1⟩

theorem visitStep_order (h : VisitHistory) (d dep : Date) (c : String)
    (hle : d.dayNumber ≤ dep.dayNumber)
    (h1 : ∀ c', containsKey h.country2firstvisit c' ↔
      containsKey h.country2lastvisit c')
    (h2 : ∀ c', containsKey h.country2days c' ↔
      containsKey h.country2lastvisit c')
    (h3 : ∀ c' df dl, lookupA h.country2firstvisit c' = some df →
      lookupA h.country2lastvisit c' = some dl → df.dayNumber ≤ dl.dayNumber)
    (h4 : ∀ c' dl, lookupA h.country2lastvisit c' = some dl →
      dl.dayNumber ≤ d.dayNumber) :
    (∀ c', containsKey (visitStep h d dep c).country2firstvisit c' ↔
      containsKey (visitStep h d dep c).country2lastvisit c') ∧
    (∀ c', containsKey (visitStep h d dep c).country2days c' ↔
      containsKey (visitStep h d dep c).country2lastvisit c') ∧
    (∀ c' df dl, lookupA (visitStep h d dep c).country2firstvisit c' = some df →
      lookupA (visitStep h d dep c).country2lastvisit c' = some dl →
      df.dayNumber ≤ dl.dayNumber) ∧
    (∀ c' dl, lookupA (visitStep h d dep c).country2lastvisit c' = some dl →
      dl.dayNumber ≤ dep.dayNumber) := by
  simp only [visitStep]
  refine ⟨?_, ?_, ?_, ?_⟩
  · intro c'
    rw [containsKey_setA]
    by_cases hF : containsKey h.country2firstvisit c
    · rw [if_pos hF]
      constructor
      · intro hc'
        exact Or.inr ((h1 c').mp hc')
      · rintro (rfl | hc')
        · exact hF
        · exact (h1 c').mpr hc'
    · rw [if_neg hF, containsKey_setA, h1 c']
  · intro c'
    rw [containsKey_setA, containsKey_dgetD_snd, containsKey_setA, h2 c']
    tauto
  · intro c' df dl hdf hdl
    rw [lookupA_setA] at hdl
    by_cases hcc : c' = c
    · rw [if_pos hcc] at hdl
      have hdl' : dl = dep := (Option.some.inj hdl).symm
      subst hdl'
      by_cases hF : containsKey h.country2firstvisit c
      · rw [if_pos hF] at hdf
        subst hcc
        obtain ⟨dl0, hdl0⟩ :=
          lookupA_eq_some_of_containsKey h.country2lastvisit c' ((h1 c').mp hF)
        have ha := h3 c' df dl0 hdf hdl0
        have hb := h4 c' dl0 hdl0
        omega
      · rw [if_neg hF, lookupA_setA] at hdf
        subst hcc
        rw [if_pos rfl] at hdf
        have hdf' : df = d := (Option.some.inj hdf).symm
        subst hdf'
        exact hle
    · rw [if_neg hcc] at hdl
      by_cases hF : containsKey h.country2firstvisit c
      · rw [if_pos hF] at hdf
        exact h3 c' df dl hdf hdl
      · rw [if_neg hF, lookupA_setA, if_neg hcc] at hdf
        exact h3 c' df dl hdf hdl
  · intro c' dl hdl
    rw [lookupA_setA] at hdl
    by_cases hcc : c' = c
    · rw [if_pos hcc] at hdl
      have hdl' : dl = dep := (Option.some.inj hdl).symm
      subst hdl'
      exact le_refl _
    · rw [if_neg hcc] at hdl
      have := h4 c' dl hdl
      omega

theorem visitLoop_order (today : Date) (recs : List (Date × String)) :
    ∀ h : VisitHistory,
      List.Chain' (fun a b => a.dayNumber ≤ b.dayNumber)
        (recs.map Prod.fst ++ [today]) →
      (∀ c, containsKey h.country2firstvisit c ↔
        containsKey h.country2lastvisit c) →
      (∀ c, containsKey h.country2days c ↔
        containsKey h.country2lastvisit c) →
      (∀ c df dl, lookupA h.country2firstvisit c = some df →
        lookupA h.country2lastvisit c = some dl →
        df.dayNumber ≤ dl.dayNumber) →
      (∀ c dl, lookupA h.country2lastvisit c = some dl →
        dl.dayNumber ≤ (departOf today recs).dayNumber) →
      (∀ c, containsKey (visitLoop today recs h).country2firstvisit c ↔
        containsKey (visitLoop today recs h).country2lastvisit c) ∧
      (∀ c, containsKey (visitLoop today recs h).country2days c ↔
        containsKey (visitLoop today recs h).country2lastvisit c) ∧
      (∀ c df dl, lookupA (visitLoop today recs h).country2firstvisit c = some df →
        lookupA (visitLoop today recs h).country2lastvisit c = some dl →
        df.dayNumber ≤ dl.dayNumber) ∧
      (∀ c dl, lookupA (visitLoop today recs h).country2lastvisit c = some dl →
        dl.dayNumber ≤ today.dayNumber) := by
  induction recs with
  | nil =>
    intro h _ h1 h2 h3 h4
    exact ⟨h1, h2, h3, h4⟩
  | cons r rest ih =>
    intro h hsort h1 h2 h3 h4
    obtain ⟨d, c⟩ := r
    simp only [List.map_cons, List.cons_append] at hsort
    have key : d.dayNumber ≤ (departOf today rest).dayNumber ∧
        List.Chain' (fun a b => a.dayNumber ≤ b.dayNumber)
          (rest.map Prod.fst ++ [today]) := by
      cases rest with
      | nil =>
        exact ⟨(List.chain'_cons.mp hsort).1, List.chain'_singleton today⟩
      | cons r2 rest2 =>
        obtain ⟨d2, c2⟩ := r2
        simp only [List.map_cons, List.cons_append] at hsort ⊢
        exact ⟨(List.chain'_cons.mp hsort).1, (List.chain'_cons.mp hsort).2⟩
    have h4' : ∀ c' dl, lookupA h.country2lastvisit c' = some dl →
        dl.dayNumber ≤ d.dayNumber := by
      intro c' dl hdl
      exact h4 c' dl hdl
    obtain ⟨o1, o2, o3, o4⟩ :=
      visitStep_order h d (departOf today rest) c key.1 h1 h2 h3 h4'
    simp only [visitLoop]
    exact ih (visitStep h d (departOf today rest) c) key.2 o1 o2 o3 o4

theorem intervalsOf_nonneg (today : Date) (recs : List (Date × String)) :
    List.Chain' (fun a b => a.dayNumber ≤ b.dayNumber)
      (recs.map Prod.fst ++ [today]) →
    ∀ p ∈ intervalsOf today recs, 0 ≤ p.2 := by
  induction recs with
  | nil =>
    intro _ p hp
    simp [intervalsOf] at hp
  | cons r rest ih =>
    intro hsort p hp
    obtain ⟨d, c⟩ := r
    simp only [List.map_cons, List.cons_append] at hsort
    have key : d.dayNumber ≤ (departOf today rest).dayNumber ∧
        List.Chain' (fun a b => a.dayNumber ≤ b.dayNumber)
          (rest.map Prod.fst ++ [today]) := by
      cases rest with
      | nil =>
        exact ⟨(List.chain'_cons.mp hsort).1, List.chain'_singleton today⟩
      | cons r2 rest2 =>
        obtain ⟨d2, c2⟩ := r2
        simp only [List.map_cons, List.cons_append] at hsort ⊢
        exact ⟨(List.chain'_cons.mp hsort).1, (List.chain'_cons.mp hsort).2⟩
    rw [intervalsOf] at hp
    rcases List.mem_cons.mp hp with h1 | h2
    · subst h1
      simp only [dateSub]
      omega
    · exact ih key.2 p h2

/-- C10: under the stated input invariant — the record dates, followed by
the injected current date that closes the final open-ended interval, are
non-decreasing — the Builder satisfies: every country present in the result
has `first_visit ≤ last_visit`; each country's `total_days` is exactly the
sum of the interval lengths of its records; and every interval length is
non-negative (0 is possible when two consecutive records share a date). -/
theorem claim_C10_invariants (today : Date) (recs : List (Date × String))
    (hsort : List.Chain' (fun a b => a.dayNumber ≤ b.dayNumber)
      (recs.map Prod.fst ++ [today])) :
    (∀ c, containsKey (create_visit_history today recs).country2days c →
      ∃ df dl,
        lookupA (create_visit_history today recs).country2firstvisit c = some df ∧
        lookupA (create_visit_history today recs).country2lastvisit c = some dl ∧
        df.dayNumber ≤ dl.dayNumber) ∧
    (∀ c, lookupD (create_visit_history today recs).country2days c 0 =
      (((intervalsOf today recs).filter (fun p => decide (p.1 = c))).map
        Prod.snd).sum) ∧
    (∀ p ∈ intervalsOf today recs, 0 ≤ p.2) := by
  have hinit1 : ∀ c : String,
      containsKey (⟨[], [], [], []⟩ : VisitHistory).country2firstvisit c ↔
      containsKey (⟨[], [], [], []⟩ : VisitHistory).country2lastvisit c :=
    fun c => Iff.rfl
  have hinit2 : ∀ c : String,
      containsKey (⟨[], [], [], []⟩ : VisitHistory).country2days c ↔
      containsKey (⟨[], [], [], []⟩ : VisitHistory).country2lastvisit c :=
    fun c => Iff.rfl
  have hinit3 : ∀ (c : String) (df dl : Date),
      lookupA (⟨[], [], [], []⟩ : VisitHistory).country2firstvisit c = some df →
      lookupA (⟨[], [], [], []⟩ : VisitHistory).country2lastvisit c = some dl →
      df.dayNumber ≤ dl.dayNumber := by
    intro c df dl hdf _
    simp [lookupA] at hdf
  have hinit4 : ∀ (c : String) (dl : Date),
      lookupA (⟨[], [], [], []⟩ : VisitHistory).country2lastvisit c = some dl →
      dl.dayNumber ≤ (departOf today recs).dayNumber := by
    intro c dl hdl
    simp [lookupA] at hdl
  obtain ⟨o1, o2, o3, o4⟩ :=
    visitLoop_order today recs ⟨[], [], [], []⟩ hsort hinit1 hinit2 hinit3 hinit4
  refine ⟨?_, ?_, ?_⟩
  · intro c hc
    rw [create_visit_history] at hc ⊢
    have hcl := (o2 c).mp hc
    have hcf := (o1 c).mpr hcl
    obtain ⟨df, hdf⟩ := lookupA_eq_some_of_containsKey _ c hcf
    obtain ⟨dl, hdl⟩ := lookupA_eq_some_of_containsKey _ c hcl
    exact ⟨df, dl, hdf, hdl, o3 c df dl hdf hdl⟩
  · intro c
    exact create_visit_history_days today recs c
  · exact intervalsOf_nonneg today recs hsort

/-- Witness for C10: two same-date records for country A (a zero-day
interval) with a later current date; the day total equals the sum of the
intervals. -/
theorem claim_C10_witness :
    lookupD (create_visit_history ⟨2020, 1, 3⟩
        [(⟨2020, 1, 1⟩, "A"), (⟨2020, 1, 1⟩, "A")]).country2days "A" 0 =
      (((intervalsOf ⟨2020, 1, 3⟩
        [(⟨2020, 1, 1⟩, "A"), (⟨2020, 1, 1⟩, "A")]).filter
          (fun p => decide (p.1 = "A"))).map Prod.snd).sum :=
  (claim_C10_invariants ⟨2020, 1, 3⟩
    [(⟨2020, 1, 1⟩, "A"), (⟨2020, 1, 1⟩, "A")]
    (by
      simp only [List.map_cons, List.map_nil, List.cons_append, List.nil_append]
      exact List.chain'_cons.mpr ⟨by decide, List.chain'_cons.mpr
        ⟨by decide, List.chain'_singleton _⟩⟩)).2.1 "A"
